import Mathlib

/-!
Verification of the annotator repository's symbol-detection and doc-insertion
pipeline against its specification.

Conventions of the shallow embedding:
* Source text is modelled as `List Char`; line terminators are modelled as
  the single character '\n' (the only terminator appearing in the repository's
  data and tests).
* Python's `str.splitlines(keepends=True)` becomes `splitKeepEnds`, the
  keepends-free variant becomes `splitLines`.
* Python integers are `Int` where sign matters (proposal line anchors) and
  `Nat` for offsets that are non-negative by construction.
* Python's stable `sorted(..., key=..., reverse=True)` is modelled by
  Mathlib's stable `List.insertionSort` with the corresponding relation.
* Calls into the Python standard library that are external to the repository
  (`ast.parse`, the `re` match scans) are modelled as oracle parameters: the
  embedded functions receive the parse result / match lists as inputs, and
  everything the repository itself computes from them is embedded faithfully.
-/

namespace Annotator

/-- Source text and fragments of it. -/
abbrev Str := List Char

/-- Python whitespace as used by `str.strip`, `str.lstrip`, `str.rstrip` and
the regex class `\s` (ASCII range). -/
def isPySpace (c : Char) : Bool :=
  c = ' ' || c = '\t' || c = '\n' || c = '\r' || c = '\x0b' || c = '\x0c'

/-- Python `str.splitlines(keepends=True)`: split after every newline
character, keeping the terminator with its line. -/
def splitKeepEnds : Str → List Str
  | [] => []
  | c :: rest =>
    match splitKeepEnds rest with
    | [] => [[c]]
    | l :: ls => if c = '\n' then [c] :: l :: ls else (c :: l) :: ls

/-- Drop one trailing newline from a line, if present. -/
def dropLineEnd (l : Str) : Str :=
  if l.getLast? = some '\n' then l.dropLast else l

/-- Python `str.splitlines()` (without keepends). -/
def splitLines (s : Str) : List Str :=
  (splitKeepEnds s).map dropLineEnd

/-- Python `str.rstrip()` (strip trailing whitespace). -/
def rstripWs (l : Str) : Str := (l.reverse.dropWhile isPySpace).reverse

/-- Python `str.rstrip("\n")` (strip trailing newlines only). -/
def rstripNl (l : Str) : Str := (l.reverse.dropWhile (fun c => c = '\n')).reverse

/-- The leading-whitespace count `len(line) - len(line.lstrip())`. -/
def lstripLen (l : Str) : Nat := (l.takeWhile isPySpace).length

/-- Does the line, after `rstrip()`, end with a comma?  This is the
multi-line-signature test of `_apply_proposals_to_source`. -/
def endsWithComma (l : Str) : Bool := (rstripWs l).getLast? = some ','

/-- Python `list.insert(n, a)` (clamping the index into range, as Python
does). -/
def insertAt (n : Nat) (a : α) (l : List α) : List α :=
  l.take n ++ a :: l.drop n

/-- `DocProposal` from `annotator/client.py`, restricted to the fields the
insertion engine reads (`line`, `proposed_doc`) plus the symbol name. -/
structure DocProposal where
  symbol_name : Str
  line : Int
  proposed_doc : Str
deriving DecidableEq

/-- Descending order on proposals by anchor line, the key used by
`sorted(proposals, key=lambda p: p.line, reverse=True)`. -/
def propGE (p q : DocProposal) : Prop := q.line ≤ p.line

instance : DecidableRel propGE :=
  fun p q => inferInstanceAs (Decidable (q.line ≤ p.line))

instance : IsTotal DocProposal propGE := ⟨fun a b => le_total b.line a.line⟩

instance : IsTrans DocProposal propGE := ⟨fun _ _ _ h1 h2 => le_trans h2 h1⟩

/-- Python's stable descending sort of the proposal list. -/
def sortByLineDesc (l : List DocProposal) : List DocProposal :=
  List.insertionSort propGE l

/-- Fuel-driven unfolding of the body-start `while` loop; the fuel bounds the
number of iterations, which is at most `lines.length - bs`. -/
def findBodyStartAux (lines : List Str) : Nat → Nat → Nat
  | 0, bs => bs
  | fuel + 1, bs =>
    if bs < lines.length then
      if endsWithComma (lines.getD (bs - 1) []) then
        findBodyStartAux lines fuel (bs + 1)
      else bs
    else bs

/-- The `while body_start < len(lines) and lines[body_start - 1].rstrip().endswith(",")`
loop that walks past continuation lines of a multi-line signature.  Each
iteration increments `bs` and requires `bs < lines.length`, so
`lines.length - bs + 1` fuel never runs out. -/
def findBodyStart (lines : List Str) (bs : Nat) : Nat :=
  findBodyStartAux lines (lines.length - bs + 1) bs

/-- Re-indent a doc block: each non-blank line of
`doc.rstrip("\n").splitlines()` gets the computed indent as a prefix, the
lines are re-joined with newlines, and one trailing newline is appended. -/
def indentDoc (ind : Str) (doc : Str) : Str :=
  (List.intercalate ['\n']
    ((splitLines (rstripNl doc)).map
      (fun l => if l.all isPySpace then l else ind ++ l))) ++ ['\n']

/-- One iteration of the insertion loop of `_apply_proposals_to_source`:
insert a single proposal into the current line list, or skip it when its
0-based anchor is out of range. -/
def applyOneProposal (language : Str) (lines : List Str) (prop : DocProposal) :
    List Str :=
  let insert_at : Int := prop.line - 1
  if insert_at < 0 ∨ insert_at > (lines.length : Int) then lines
  else
    let i := insert_at.toNat
    let doc :=
      if prop.proposed_doc.getLast? = some '\n' then prop.proposed_doc
      else prop.proposed_doc ++ ['\n']
    let func_line := lines.getD i []
    let indent_str : Str := List.replicate (lstripLen func_line) ' '
    if language = "python".toList then
      let body_start := findBodyStart lines (i + 1)
      insertAt body_start (indentDoc (indent_str ++ [' ', ' ', ' ', ' ']) doc) lines
    else
      insertAt i (indentDoc indent_str doc) lines

/-- `_apply_proposals_to_source` from `annotator/ui/diff_viewer.py`. -/
def applyProposalsToSource (source : Str) (proposals : List DocProposal)
    (language : Str) : Str :=
  let lines := splitKeepEnds source
  let sorted_props := sortByLineDesc proposals
  (sorted_props.foldl (applyOneProposal language) lines).flatten

/-! ### Basic lemmas about the line splitting -/

theorem flatten_splitKeepEnds (s : Str) : (splitKeepEnds s).flatten = s := by
  induction s with
  | nil => rfl
  | cons c rest ih =>
    simp only [splitKeepEnds]
    cases h : splitKeepEnds rest with
    | nil =>
      rw [h] at ih
      simp only [List.flatten] at ih ⊢
      simp [← ih]
    | cons l ls =>
      rw [h] at ih
      by_cases hc : c = '\n'
      · subst hc
        simp only [List.flatten_cons] at ih ⊢
        simp [ih]
      · simp only [if_neg hc]
        simp only [List.flatten_cons] at ih ⊢
        simp [List.cons_append, ih]

/-- C2: on the source `"def f(a, b):\n    return a + b\n"` with a single
python-family proposal anchored at line 1 whose doc is
`"""Adds two numbers."""`, the engine output has the doc string as line 2
prefixed with exactly four spaces, and the original return line verbatim as
line 3. -/
theorem inline_docstring_scenario :
    splitKeepEnds (applyProposalsToSource
        "def f(a, b):\n    return a + b\n".toList
        [{ symbol_name := "f".toList, line := 1,
           proposed_doc := "\"\"\"Adds two numbers.\"\"\"".toList }]
        "python".toList)
      = ["def f(a, b):\n".toList,
         (['\x20', '\x20', '\x20', '\x20'] ++ "\"\"\"Adds two numbers.\"\"\"\n".toList),
         "    return a + b\n".toList] := by
  decide

/-- C10: applying the engine with an empty proposal list returns the source
unchanged, character for character, for every source text and language
family: the split-into-lines-and-rejoin round trip is the identity. -/
theorem empty_proposals_identity (source : Str) (language : Str) :
    applyProposalsToSource source [] language = source := by
  simp [applyProposalsToSource, sortByLineDesc, List.insertionSort,
    flatten_splitKeepEnds]

/-! ### Order invariance of the proposal sort -/

/-- Strict descending order on proposals by anchor line. -/
def propGT (p q : DocProposal) : Prop := q.line < p.line

instance : IsAntisymm DocProposal propGT :=
  ⟨fun _ _ h1 h2 => absurd (lt_trans h1 h2) (lt_irrefl _)⟩

theorem sortByLineDesc_perm (l : List DocProposal) : (sortByLineDesc l).Perm l :=
  List.perm_insertionSort propGE l

theorem sortByLineDesc_sorted (l : List DocProposal) :
    (sortByLineDesc l).Sorted propGE :=
  List.sorted_insertionSort propGE l

theorem sorted_strict_of_nodup {l : List DocProposal}
    (hs : l.Sorted propGE) (hnd : (l.map DocProposal.line).Nodup) :
    l.Sorted propGT := by
  have hne : l.Pairwise (fun a b => a.line ≠ b.line) := by
    rw [List.Nodup, List.pairwise_map] at hnd
    exact hnd
  exact (hs.and hne).imp (fun h => lt_of_le_of_ne h.1 (Ne.symm h.2))

theorem sortByLineDesc_eq_of_perm (l₁ l₂ : List DocProposal)
    (hperm : l₁.Perm l₂) (hnd : (l₁.map DocProposal.line).Nodup) :
    sortByLineDesc l₁ = sortByLineDesc l₂ := by
  have hnd₁ : ((sortByLineDesc l₁).map DocProposal.line).Nodup :=
    (((sortByLineDesc_perm l₁).map DocProposal.line).nodup_iff).mpr hnd
  have hnd₂ : ((sortByLineDesc l₂).map DocProposal.line).Nodup :=
    (((sortByLineDesc_perm l₂).map DocProposal.line).nodup_iff).mpr
      (((hperm.map DocProposal.line).nodup_iff).mp hnd)
  have hp : (sortByLineDesc l₁).Perm (sortByLineDesc l₂) :=
    (sortByLineDesc_perm l₁).trans (hperm.trans (sortByLineDesc_perm l₂).symm)
  exact List.eq_of_perm_of_sorted hp
    (sorted_strict_of_nodup (sortByLineDesc_sorted l₁) hnd₁)
    (sorted_strict_of_nodup (sortByLineDesc_sorted l₂) hnd₂)

/-- C1: for every source, language family and list of accepted proposals with
pairwise-distinct line numbers, the engine output is the same for every
permutation of the proposal list (it re-sorts internally into descending
line order). -/
theorem insertion_order_invariance (source language : Str)
    (l₁ l₂ : List DocProposal) (hperm : l₁.Perm l₂)
    (hnd : (l₁.map DocProposal.line).Nodup) :
    applyProposalsToSource source l₁ language
      = applyProposalsToSource source l₂ language := by
  unfold applyProposalsToSource
  rw [sortByLineDesc_eq_of_perm l₁ l₂ hperm hnd]

/-- Witness for C1 at a concrete source and a concrete transposed pair of
proposals. -/
theorem insertion_order_invariance_witness :
    (([⟨"f".toList, 2, "# a".toList⟩, ⟨"g".toList, 1, "# b".toList⟩] :
        List DocProposal).Perm
      [⟨"g".toList, 1, "# b".toList⟩, ⟨"f".toList, 2, "# a".toList⟩])
    ∧ (([⟨"f".toList, 2, "# a".toList⟩, ⟨"g".toList, 1, "# b".toList⟩] :
        List DocProposal).map DocProposal.line).Nodup
    ∧ applyProposalsToSource "a\nb\n".toList
        [⟨"f".toList, 2, "# a".toList⟩, ⟨"g".toList, 1, "# b".toList⟩] "ts".toList
      = applyProposalsToSource "a\nb\n".toList
        [⟨"g".toList, 1, "# b".toList⟩, ⟨"f".toList, 2, "# a".toList⟩] "ts".toList :=
  ⟨List.Perm.swap _ _ _, by decide,
   insertion_order_invariance _ _ _ _ (List.Perm.swap _ _ _) (by decide)⟩

/-! ### Out-of-range anchors are skipped silently -/

/-- A proposal whose 0-based anchor is in range for the given source text:
not negative and not past end-of-file.  Insertion exactly at end-of-file
(`insert_at = len(lines)`) counts as in range, as in the code. -/
def inRangeProposal (source : Str) (p : DocProposal) : Bool :=
  decide (0 ≤ p.line - 1 ∧ p.line - 1 ≤ ((splitKeepEnds source).length : Int))

theorem applyOneProposal_skip (language : Str) {L : List Str} {p : DocProposal}
    (h : p.line - 1 < 0 ∨ p.line - 1 > (L.length : Int)) :
    applyOneProposal language L p = L := by
  simp only [applyOneProposal]
  rw [if_pos h]

theorem length_insertAt (n : Nat) (a : α) (l : List α) :
    (insertAt n a l).length = l.length + 1 := by
  simp only [insertAt, List.length_append, List.length_take, List.length_cons,
    List.length_drop]
  omega

theorem applyOneProposal_length (language : Str) {L : List Str}
    {p : DocProposal} (h : ¬(p.line - 1 < 0 ∨ p.line - 1 > (L.length : Int))) :
    (applyOneProposal language L p).length = L.length + 1 := by
  simp only [applyOneProposal]
  rw [if_neg h]
  split <;> simp [length_insertAt]

theorem foldl_filter_inRange (language : Str) (S : List DocProposal) :
    ∀ (L : List Str), S.Sorted propGE →
      S.foldl (applyOneProposal language) L
        = (S.filter (fun p =>
            decide (0 ≤ p.line - 1 ∧ p.line - 1 ≤ (L.length : Int)))).foldl
            (applyOneProposal language) L := by
  induction S with
  | nil => intro L _; rfl
  | cons p S' ih =>
    intro L hs
    rw [List.sorted_cons] at hs
    obtain ⟨hhead, htail⟩ := hs
    by_cases hp : 0 ≤ p.line - 1 ∧ p.line - 1 ≤ (L.length : Int)
    · rw [List.filter_cons_of_pos (by simpa using hp)]
      simp only [List.foldl_cons]
      have hlen : (applyOneProposal language L p).length = L.length + 1 :=
        applyOneProposal_length language (by omega)
      rw [ih (applyOneProposal language L p) htail]
      congr 1
      apply List.filter_congr
      intro q hq
      have hline : q.line ≤ p.line := hhead q hq
      apply decide_eq_decide.mpr
      rw [hlen]
      push_cast
      omega
    · rw [List.filter_cons_of_neg (by simpa using hp), List.foldl_cons,
        applyOneProposal_skip language (by omega), ih L htail]

theorem orderedInsert_all_le {p : DocProposal} {l : List DocProposal}
    (h : ∀ q ∈ l, q.line ≤ p.line) :
    List.orderedInsert propGE p l = p :: l := by
  cases l with
  | nil => rfl
  | cons q qs =>
    have hq : propGE p q := h q (by simp)
    simp [List.orderedInsert, hq]

theorem filter_orderedInsert (P : DocProposal → Bool) (p : DocProposal)
    (l : List DocProposal) (hs : l.Sorted propGE) :
    (List.orderedInsert propGE p l).filter P
      = if P p then List.orderedInsert propGE p (l.filter P)
        else l.filter P := by
  induction l with
  | nil => by_cases hP : P p <;> simp [List.orderedInsert, hP]
  | cons q qs ih =>
    rw [List.sorted_cons] at hs
    obtain ⟨hq, hqs⟩ := hs
    by_cases hpq : propGE p q
    · rw [List.orderedInsert_of_le _ _ hpq]
      by_cases hP : P p
      · rw [List.filter_cons_of_pos (by simpa using hP), if_pos hP]
        rw [orderedInsert_all_le]
        intro r hr
        have hr' : r ∈ q :: qs := List.mem_of_mem_filter hr
        rcases List.mem_cons.mp hr' with h | h
        · subst h; exact hpq
        · exact le_trans (hq r h) hpq
      · rw [List.filter_cons_of_neg (by simpa using hP), if_neg hP]
    · simp only [List.orderedInsert, if_neg hpq]
      by_cases hQ : P q
      · rw [List.filter_cons_of_pos (by simpa using hQ),
          List.filter_cons_of_pos (by simpa using hQ), ih hqs]
        by_cases hP : P p
        · rw [if_pos hP, if_pos hP]
          simp [List.orderedInsert, if_neg hpq]
        · rw [if_neg hP, if_neg hP]
      · rw [List.filter_cons_of_neg (by simpa using hQ),
          List.filter_cons_of_neg (by simpa using hQ), ih hqs]

theorem filter_sortByLineDesc (P : DocProposal → Bool) (l : List DocProposal) :
    (sortByLineDesc l).filter P = sortByLineDesc (l.filter P) := by
  induction l with
  | nil => rfl
  | cons p ps ih =>
    simp only [sortByLineDesc, List.insertionSort] at ih ⊢
    rw [filter_orderedInsert P p _ (List.sorted_insertionSort propGE ps), ih]
    by_cases hP : P p
    · rw [if_pos hP, List.filter_cons_of_pos (by simpa using hP)]
      rfl
    · rw [if_neg hP, List.filter_cons_of_neg (by simpa using hP)]

/-- C3: the engine never fails on out-of-range anchors — every proposal whose
0-based anchor is negative or past end-of-file is skipped silently, and the
result is exactly what the remaining in-range proposals of the same call
produce. -/
theorem out_of_range_anchors_skipped (source : Str)
    (proposals : List DocProposal) (language : Str) :
    applyProposalsToSource source proposals language
      = applyProposalsToSource source
          (proposals.filter (inRangeProposal source)) language := by
  simp only [applyProposalsToSource, inRangeProposal]
  rw [← filter_sortByLineDesc]
  exact congrArg List.flatten
    (foldl_filter_inRange language (sortByLineDesc proposals)
      (splitKeepEnds source) (sortByLineDesc_sorted proposals))

/-! ### Python AST analyzer (`annotator/languages/python_analyzer.py`)

The CPython `ast` module is external to the repository; it is modelled as an
oracle: the embedded `analyze` receives the parse result (`none` on a syntax
error) as the sequence of nodes `ast.walk` yields, and everything the
repository's own code computes from the nodes is embedded faithfully. -/

/-- An `ast.Constant` payload: either a Python `str`, or any other constant
carried together with its `str(...)` image. -/
inductive PyConstVal where
  | str (s : Str)
  | other (asString : Str)
deriving DecidableEq

/-- Python `str(value)` for a constant payload. -/
def PyConstVal.pyStr : PyConstVal → Str
  | .str s => s
  | .other r => r

/-- The fragment of `ast.expr` that `_decorator_to_endpoint` inspects. -/
inductive PyExpr where
  | name (id : Str)
  | attr (value : PyExpr) (attrName : Str)
  | call (func : PyExpr) (args : List PyExpr) (keywords : List (Option Str × PyExpr))
  | const (v : PyConstVal)
  | listLit (elts : List PyExpr)
  | otherExpr

/-- The fragment of `ast.stmt` that `_has_docstring` inspects in a function
body: is the statement a bare expression, and of which expression. -/
inductive PyStmt where
  | exprStmt (value : PyExpr)
  | otherStmt

/-- The fields of an `ast.FunctionDef` / `ast.AsyncFunctionDef` node that
`PythonAnalyzer.analyze` reads. -/
structure PyFunctionDef where
  name : Str
  decorator_list : List PyExpr
  body : List PyStmt
  lineno : Nat
  end_lineno : Nat

/-- A node as yielded by `ast.walk`: either a (possibly async) function
definition or any other node kind. -/
inductive PyNode where
  | functionDef (d : PyFunctionDef) (isAsync : Bool)
  | otherNode

/-- Python `str.upper()` (ASCII identifiers). -/
def upperStr (s : Str) : Str := s.map Char.toUpper

/-- Python `str.lower()` (ASCII identifiers). -/
def lowerStr (s : Str) : Str := s.map Char.toLower

/-- The HTTP verb set of `_decorator_to_endpoint`. -/
def httpVerbs : List Str :=
  ["GET".toList, "POST".toList, "PUT".toList, "DELETE".toList,
   "PATCH".toList, "HEAD".toList, "OPTIONS".toList]

/-- `decorator.args and isinstance(decorator.args[0], ast.Constant)`:
the first positional argument, when it is a constant. -/
def firstConstArg : List PyExpr → Option PyConstVal
  | PyExpr.const v :: _ => some v
  | _ => none

/-- First constant element of a `methods=[...]` list, skipping
non-constants. -/
def firstConstElt : List PyExpr → Option PyConstVal
  | [] => none
  | PyExpr.const v :: _ => some v
  | _ :: rest => firstConstElt rest

/-- The `for kw in decorator.keywords` loop: the first `methods` keyword
whose value is a list literal with a constant element yields that element's
`str(...).upper()`. -/
def findMethodsKw : List (Option Str × PyExpr) → Option Str
  | [] => none
  | kv :: rest =>
    if kv.1 = some "methods".toList then
      match kv.2 with
      | PyExpr.listLit elts =>
        match firstConstElt elts with
        | some v => some (upperStr v.pyStr)
        | none => findMethodsKw rest
      | _ => findMethodsKw rest
    else findMethodsKw rest

/-- `_decorator_to_endpoint`: extract `(method, path)` from a decorator
expression, or `none`. -/
def decoratorToEndpoint (d : PyExpr) : Option (Str × Str) :=
  match d with
  | PyExpr.call (PyExpr.attr _ attrName) args kws =>
    let methodName := upperStr attrName
    let verbHit : Option (Str × Str) :=
      if methodName ∈ httpVerbs then
        (firstConstArg args).map (fun v => (methodName, v.pyStr))
      else none
    match verbHit with
    | some r => some r
    | none =>
      if methodName = "ROUTE".toList then
        match firstConstArg args with
        | none => none
        | some v =>
          match findMethodsKw kws with
          | some m => some (m, v.pyStr)
          | none => some ("GET".toList, v.pyStr)
      else none
  | _ => none

/-- `_has_docstring`: the first body statement is a bare string-constant
expression. -/
def hasDocstring (body : List PyStmt) : Bool :=
  match body with
  | PyStmt.exprStmt (PyExpr.const (PyConstVal.str _)) :: _ => true
  | _ => false

/-- The `for decorator in node.decorator_list` loop: first decorator that
yields an endpoint wins. -/
def firstEndpoint : List PyExpr → Option (Str × Str)
  | [] => none
  | d :: rest =>
    match decoratorToEndpoint d with
    | some r => some r
    | none => firstEndpoint rest

/-- Python list slice `l[a:b]` for `0 ≤ a ≤ b`. -/
def sliceList (l : List α) (a b : Nat) : List α := (l.drop a).take (b - a)

/-- The symbol kinds of `SymbolInfo.type` in `annotator/languages/base.py`. -/
inductive SymKind where
  | function
  | classKind
  | endpoint
deriving DecidableEq

/-- `SymbolInfo` from `annotator/languages/base.py`. -/
structure SymbolInfo where
  name : Str
  line : Nat
  type : SymKind
  has_docs : Bool
  endpoint_method : Option Str
  endpoint_path : Option Str
  source_lines : List Str
deriving DecidableEq

/-- The per-node body of the `PythonAnalyzer.analyze` loop: skip dunder names
other than `__init__`, check the docstring, classify by the decorator list,
and emit a `SymbolInfo` when docs are missing. -/
def symbolOfNode (lines : List Str) (d : PyFunctionDef) : Option SymbolInfo :=
  if d.name.take 2 = ['_', '_'] ∧ d.name ≠ "__init__".toList then none
  else
    let has_docs := hasDocstring d.body
    let ep := firstEndpoint d.decorator_list
    if has_docs then none
    else
      let start := d.lineno - 1
      let stop := min d.end_lineno (start + 30)
      some { name := d.name, line := d.lineno,
             type := if ep.isSome then SymKind.endpoint else SymKind.function,
             has_docs := false,
             endpoint_method := ep.map Prod.fst,
             endpoint_path := ep.map Prod.snd,
             source_lines := sliceList lines start stop }

/-- `PythonAnalyzer.analyze`: `none` models `ast.parse` raising
`SyntaxError`; otherwise the walked nodes are processed in order. -/
def pythonAnalyze (parsed : Option (List PyNode)) (content : Str) :
    List SymbolInfo :=
  match parsed with
  | none => []
  | some nodes =>
    let lines := splitLines content
    nodes.filterMap (fun n =>
      match n with
      | PyNode.functionDef d _ => symbolOfNode lines d
      | PyNode.otherNode => none)

/-- C4: when parsing fails with a syntax error, `analyze` returns the empty
symbol list (the `except SyntaxError: return []` branch) instead of
propagating the failure, for every input string. -/
theorem syntax_error_yields_empty (content : Str) :
    pythonAnalyze none content = [] := rfl

/-- C5 (counterexample): a call-style decorator `client.get("/x")` whose
receiver `client` is not in the whitelist `app`, `router`, `api` is still
classified as an endpoint — `_decorator_to_endpoint` never inspects the
receiver (the whitelist regex `_FASTAPI_DECORATOR_RE` is defined but
unused). -/
theorem receiver_whitelist_counterexample :
    decoratorToEndpoint (PyExpr.call
        (PyExpr.attr (PyExpr.name "client".toList) "get".toList)
        [PyExpr.const (PyConstVal.str "/x".toList)] [])
      = some ("GET".toList, "/x".toList) := by decide

/-- C5 (amended): a call-style decorator with an HTTP-verb attribute and a
constant first positional argument classifies the function as an endpoint
for EVERY receiver expression — the receiver name is not checked. -/
theorem verb_decorator_ignores_receiver (recv : PyExpr) (attrName : Str)
    (v : PyConstVal) (rest : List PyExpr) (kws : List (Option Str × PyExpr))
    (hv : upperStr attrName ∈ httpVerbs) :
    decoratorToEndpoint (PyExpr.call (PyExpr.attr recv attrName)
        (PyExpr.const v :: rest) kws)
      = some (upperStr attrName, v.pyStr) := by
  simp [decoratorToEndpoint, firstConstArg, hv]

/-- Witness for the amended C5 at the non-whitelisted receiver `client`. -/
theorem verb_decorator_ignores_receiver_witness :
    upperStr "get".toList ∈ httpVerbs
    ∧ decoratorToEndpoint (PyExpr.call
        (PyExpr.attr (PyExpr.name "client".toList) "get".toList)
        (PyExpr.const (PyConstVal.str "/x".toList) :: []) [])
      = some (upperStr "get".toList, (PyConstVal.str "/x".toList).pyStr) :=
  ⟨by decide,
   verb_decorator_ignores_receiver (PyExpr.name "client".toList) "get".toList
     (PyConstVal.str "/x".toList) [] [] (by decide)⟩

theorem findMethodsKw_eq_none {kws : List (Option Str × PyExpr)}
    (hk : ∀ kv ∈ kws, kv.1 ≠ some "methods".toList) :
    findMethodsKw kws = none := by
  induction kws with
  | nil => rfl
  | cons kv rest ih =>
    have h1 : kv.1 ≠ some "methods".toList := hk kv (by simp)
    rw [findMethodsKw, if_neg h1]
    exact ih (fun kv' h' => hk kv' (by simp [h']))

/-- C8: a `route` decorator with a constant path argument and no `methods`
keyword yields an endpoint with method GET and that path, for every receiver
and remaining arguments, without raising. -/
theorem route_decorator_defaults_to_get (recv : PyExpr) (path : Str)
    (rest : List PyExpr) (kws : List (Option Str × PyExpr))
    (hk : ∀ kv ∈ kws, kv.1 ≠ some "methods".toList) :
    decoratorToEndpoint (PyExpr.call (PyExpr.attr recv "route".toList)
        (PyExpr.const (PyConstVal.str path) :: rest) kws)
      = some ("GET".toList, path) := by
  have hm : findMethodsKw kws = none := findMethodsKw_eq_none hk
  simp [decoratorToEndpoint, firstConstArg, hm, upperStr, httpVerbs,
    PyConstVal.pyStr]

/-- Witness for C8: `@app.route("/users")` with no keyword arguments. -/
theorem route_decorator_defaults_to_get_witness :
    (∀ kv ∈ ([] : List (Option Str × PyExpr)), kv.1 ≠ some "methods".toList)
    ∧ decoratorToEndpoint (PyExpr.call
        (PyExpr.attr (PyExpr.name "app".toList) "route".toList)
        (PyExpr.const (PyConstVal.str "/users".toList) :: []) [])
      = some ("GET".toList, "/users".toList) :=
  ⟨fun kv h => absurd h (List.not_mem_nil kv),
   route_decorator_defaults_to_get (PyExpr.name "app".toList) "/users".toList
     [] [] (fun kv h => absurd h (List.not_mem_nil kv))⟩

theorem python_endpoint_fields_aux (parsed : Option (List PyNode))
    (content : Str) (s : SymbolInfo) (hs : s ∈ pythonAnalyze parsed content) :
    s.endpoint_method.isSome = s.endpoint_path.isSome := by
  cases parsed with
  | none => simp [pythonAnalyze] at hs
  | some nodes =>
    simp only [pythonAnalyze, List.mem_filterMap] at hs
    obtain ⟨n, _, hsym⟩ := hs
    cases n with
    | otherNode => simp at hsym
    | functionDef d a =>
      simp only [symbolOfNode] at hsym
      split at hsym
      · exact absurd hsym (by simp)
      · split at hsym
        · exact absurd hsym (by simp)
        · obtain rfl := Option.some_inj.mp hsym
          cases firstEndpoint d.decorator_list <;> simp

/-! ### TypeScript/JavaScript regex analyzer
(`annotator/languages/typescript_analyzer.py`)

The `re` module is external to the repository.  The match lists the five
compiled patterns produce (`_FUNC_PATTERNS`, `_EXPRESS_RE`,
`_NESTJS_ENDPOINT_RE`, `_NESTJS_CONTROLLER_RE`) are oracle inputs carrying
each match's start offset and capture groups; everything the repository
computes from them is embedded faithfully.  The one regex whose meaning a
claim is about, `_JSDOC_RE`, is given a concrete executable semantics in
`jsdocSearchHit`. -/

/-- A `_FUNC_PATTERNS` match: start offset and the captured name. -/
structure TsFuncMatch where
  start : Nat
  name : Str

/-- An `_EXPRESS_RE` match: start offset, captured verb and path. -/
structure TsExpressMatch where
  start : Nat
  verb : Str
  path : Str

/-- A `_NESTJS_ENDPOINT_RE` match: start offset, captured verb, optional
path argument. -/
structure TsNestMatch where
  start : Nat
  verb : Str
  pathArg : Option Str

/-- A `_NESTJS_CONTROLLER_RE` match: the optional base-path group. -/
structure TsControllerMatch where
  basePath : Option Str

/-- All regex scan results for one `analyze` call. -/
structure TsMatches where
  funcMatches : List (List TsFuncMatch)
  express : List TsExpressMatch
  nest : List TsNestMatch
  controller : Option TsControllerMatch

/-- Python `str.strip(c)` for a single strip character. -/
def stripChar (c : Char) (s : Str) : Str :=
  ((s.dropWhile (· = c)).reverse.dropWhile (· = c)).reverse

/-- Python `str.rstrip(c)` for a single strip character. -/
def rstripChar (c : Char) (s : Str) : Str :=
  (s.reverse.dropWhile (· = c)).reverse

/-- The NestJS path combination
`f"/{controller_base.strip('/')}/{path_part.strip('/')}".rstrip("/")`,
re-prefixed with `/` when the result lost its leading slash. -/
def nestFullPath (base pathPart : Str) : Str :=
  let fp := rstripChar '/' (('/' :: stripChar '/' base) ++ '/' :: stripChar '/' pathPart)
  if fp.take 1 = ['/'] then fp else '/' :: fp

/-- `content[:m.start()].count("\n")`: 0-based line of a match offset. -/
def lineOfOffset (content : Str) (off : Nat) : Nat :=
  ((content.take off).filter (fun c => c = '\n')).length

/-- Python `dict` assignment on an insertion-ordered association list:
overwrite in place or append. -/
def dictInsert (k : Nat) (v : α) : List (Nat × α) → List (Nat × α)
  | [] => [(k, v)]
  | (k', v') :: rest =>
    if k' = k then (k, v) :: rest else (k', v') :: dictInsert k v rest

/-- `controller_match.group(1) or "" if controller_match else ""`. -/
def controllerBase (c : Option TsControllerMatch) : Str :=
  match c with
  | some m => m.basePath.getD []
  | none => []

/-- Build `nestjs_endpoints`: each decorator match claims the five lines
after its own line. -/
def buildNestDict (content : Str) (base : Str) (ms : List TsNestMatch) :
    List (Nat × (Str × Str)) :=
  ms.foldl (fun d m =>
    let decoratorLine := lineOfOffset content m.start
    let method := upperStr m.verb
    let fullPath := nestFullPath base (m.pathArg.getD [])
    (List.range' 1 5).foldl
      (fun d off => dictInsert (decoratorLine + off) (method, fullPath) d) d) []

/-- Build `express_endpoints`, keyed by the match's own line. -/
def buildExpressDict (content : Str) (ms : List TsExpressMatch) :
    List (Nat × (Str × Str)) :=
  ms.foldl (fun d m =>
    dictInsert (lineOfOffset content m.start) (upperStr m.verb, m.path) d) []

/-- The Express proximity scan: the first dict entry whose line is within 1
of the candidate line wins. -/
def findNearExpress : List (Nat × (Str × Str)) → Nat → Option (Str × Str)
  | [], _ => none
  | (k, v) :: rest, lineNo =>
    if k - lineNo ≤ 1 ∧ lineNo - k ≤ 1 then some v
    else findNearExpress rest lineNo

/-- The NestJS scan: the dict entry whose line equals the candidate line. -/
def lookupNest : List (Nat × (Str × Str)) → Nat → Option (Str × Str)
  | [], _ => none
  | (k, v) :: rest, lineNo => if k = lineNo then some v else lookupNest rest lineNo

/-- Endpoint classification for a function line: Express proximity first,
NestJS equality second. -/
def tsEndpointFor (expD nestD : List (Nat × (Str × Str))) (lineNo : Nat) :
    Option (Str × Str) :=
  match findNearExpress expD lineNo with
  | some mp => some mp
  | none => lookupNest nestD lineNo

/-- Does some suffix of the string satisfy `P`?  This is `re.search`
positioning: try every start position left to right. -/
def anySuffix (P : Str → Bool) : Str → Bool
  | [] => P []
  | c :: rest => P (c :: rest) || anySuffix P rest

/-- A closing `*/` at this position followed by whitespace only — the
`\*/\s*$` tail of `_JSDOC_RE` (with `re.search`'s `$` at the end of the
searched block). -/
def jsdocCloseHere : Str → Bool
  | a :: b :: w => a = '*' && b = '/' && w.all isPySpace
  | _ => false

/-- An opening `/**` at this position with a matching close somewhere after
it — the `/\*\*[\s\S]*?` head of `_JSDOC_RE`. -/
def jsdocOpenHere : Str → Bool
  | a :: b :: c :: t => a = '/' && b = '*' && c = '*' && anySuffix jsdocCloseHere t
  | _ => false

/-- `_JSDOC_RE.search(block)`: somewhere in the block a `/**` opens a
comment whose `*/` close is followed only by whitespace to the end. -/
def jsdocSearchHit (s : Str) : Bool := anySuffix jsdocOpenHere s

/-- The look-back window `lines[max(0, idx - 20):idx]`. -/
def windowOf (lines : List Str) (idx : Nat) : List Str :=
  sliceList lines (idx - 20) idx

/-- `"\n".join(...)`. -/
def joinNl (ls : List Str) : Str := List.intercalate ['\n'] ls

/-- `_has_jsdoc_before`. -/
def hasJsdocBefore (lines : List Str) (funcLineIdx : Nat) : Bool :=
  if funcLineIdx = 0 then false
  else jsdocSearchHit (joinNl (windowOf lines funcLineIdx))

/-- Synthetic endpoint name
`f"{method.lower()}_{path.replace('/', '_').strip('_')}"`. -/
def synthName (method path : Str) : Str :=
  lowerStr method ++
    '_' :: stripChar '_' (path.map (fun c => if c = '/' then '_' else c))

/-- One iteration of the function-detection loop: skip lines already seen,
skip `_`-private names, test docs, classify, emit. -/
def tsFuncStep (lines : List Str) (expD nestD : List (Nat × (Str × Str)))
    (content : Str) (acc : List Nat × List SymbolInfo) (m : TsFuncMatch) :
    List Nat × List SymbolInfo :=
  let lineNo := lineOfOffset content m.start
  if lineNo ∈ acc.1 then acc
  else
    let seen' := acc.1 ++ [lineNo]
    if m.name.take 1 = ['_'] then (seen', acc.2)
    else
      let has_docs := hasJsdocBefore lines lineNo
      let ep := tsEndpointFor expD nestD lineNo
      if has_docs then (seen', acc.2)
      else
        (seen', acc.2 ++
          [{ name := m.name, line := lineNo + 1,
             type := if ep.isSome then SymKind.endpoint else SymKind.function,
             has_docs := false,
             endpoint_method := ep.map Prod.fst,
             endpoint_path := ep.map Prod.snd,
             source_lines :=
               sliceList lines lineNo (min lines.length (lineNo + 30)) }])

/-- One iteration of the synthetic-endpoint loop over `express_endpoints`:
emit a symbol for each Express match line no function pattern claimed. -/
def tsSynthStep (lines : List Str) (acc : List Nat × List SymbolInfo)
    (kv : Nat × (Str × Str)) : List Nat × List SymbolInfo :=
  if kv.1 ∈ acc.1 then acc
  else
    let seen' := acc.1 ++ [kv.1]
    if hasJsdocBefore lines kv.1 then (seen', acc.2)
    else
      (seen', acc.2 ++
        [{ name := synthName kv.2.1 kv.2.2,
           line := kv.1 + 1,
           type := SymKind.endpoint,
           has_docs := false,
           endpoint_method := some kv.2.1,
           endpoint_path := some kv.2.2,
           source_lines :=
             sliceList lines kv.1 (min lines.length (kv.1 + 30)) }])

/-- Ascending order on symbols by line, the key of `symbols.sort`. -/
def symLE (s t : SymbolInfo) : Prop := s.line ≤ t.line

instance : DecidableRel symLE :=
  fun s t => inferInstanceAs (Decidable (s.line ≤ t.line))

/-- Python's stable ascending sort of the symbol list. -/
def sortSymbolsAsc (l : List SymbolInfo) : List SymbolInfo :=
  List.insertionSort symLE l

/-- `TypeScriptAnalyzer.analyze`. -/
def tsAnalyze (content : Str) (mr : TsMatches) : List SymbolInfo :=
  let lines := splitLines content
  let base := controllerBase mr.controller
  let nestD := buildNestDict content base mr.nest
  let expD := buildExpressDict content mr.express
  let acc1 := mr.funcMatches.flatten.foldl (tsFuncStep lines expD nestD content) ([], [])
  let acc2 := expD.foldl (tsSynthStep lines) acc1
  sortSymbolsAsc acc2.2

/-! ### The jsdoc window test, declaratively -/

theorem anySuffix_iff (P : Str → Bool) (l : Str) :
    anySuffix P l = true ↔ ∃ p s, l = p ++ s ∧ P s = true := by
  induction l with
  | nil =>
    simp only [anySuffix]
    constructor
    · intro h; exact ⟨[], [], rfl, h⟩
    · rintro ⟨p, s, he, hs⟩
      obtain ⟨rfl, rfl⟩ := List.append_eq_nil.mp he.symm
      exact hs
  | cons c rest ih =>
    simp only [anySuffix, Bool.or_eq_true, ih]
    constructor
    · rintro (h | ⟨p, s, rfl, hs⟩)
      · exact ⟨[], c :: rest, rfl, h⟩
      · exact ⟨c :: p, s, rfl, hs⟩
    · rintro ⟨p, s, he, hs⟩
      cases p with
      | nil =>
        left
        have hse : s = c :: rest := by simpa using he.symm
        rw [hse] at hs
        exact hs
      | cons p₀ p' =>
        right
        obtain ⟨rfl, rfl⟩ : c = p₀ ∧ rest = p' ++ s := by
          simpa using List.cons.injEq .. ▸ (by simpa using he)
        exact ⟨p', s, rfl, hs⟩

/-- The claim's reading of the documentation test: a `/**` opens and a `*/`
closes somewhere in the joined window, with no constraint on what follows
the close. -/
def JsdocAnywhere (block : Str) : Prop :=
  ∃ p m w, block = p ++ '/' :: '*' :: '*' :: (m ++ '*' :: '/' :: w)

/-- What `_JSDOC_RE` actually tests on the joined window: a `/**` opens, a
`*/` closes, and the close is followed by whitespace only up to the end of
the window. -/
def JsdocClosedToWindowEnd (block : Str) : Prop :=
  ∃ p m w, block = p ++ '/' :: '*' :: '*' :: (m ++ '*' :: '/' :: w)
    ∧ ∀ c ∈ w, isPySpace c = true

theorem jsdocSearchHit_iff (s : Str) :
    jsdocSearchHit s = true ↔ JsdocClosedToWindowEnd s := by
  rw [jsdocSearchHit, anySuffix_iff]
  constructor
  · rintro ⟨p, t, rfl, ht⟩
    match t, ht with
    | a :: b :: c :: t', ht =>
      simp only [jsdocOpenHere, Bool.and_eq_true, decide_eq_true_eq] at ht
      obtain ⟨⟨⟨rfl, rfl⟩, rfl⟩, hsfx⟩ := ht
      rw [anySuffix_iff] at hsfx
      obtain ⟨m, u, rfl, hu⟩ := hsfx
      match u, hu with
      | x :: y :: w, hu =>
        simp only [jsdocCloseHere, Bool.and_eq_true, decide_eq_true_eq,
          List.all_eq_true] at hu
        obtain ⟨⟨rfl, rfl⟩, hw⟩ := hu
        exact ⟨p, m, w, rfl, hw⟩
  · rintro ⟨p, m, w, rfl, hw⟩
    refine ⟨p, _, rfl, ?_⟩
    simp only [jsdocOpenHere, Bool.and_eq_true, decide_eq_true_eq]
    refine ⟨by simp, ?_⟩
    rw [anySuffix_iff]
    refine ⟨m, _, rfl, ?_⟩
    simp only [jsdocCloseHere, Bool.and_eq_true, decide_eq_true_eq,
      List.all_eq_true]
    exact ⟨by simp, hw⟩

/-- C6 (counterexample): with the window `["/** d */", "const a = 1;"]`
preceding candidate line index 2, a JSDoc block opens and closes inside the
window, yet `_has_jsdoc_before` reports no documentation, because the
closing token is followed by a code line inside the window — so "closed
with `*/` anywhere in that window, regardless of exact adjacency" is not
what the code tests. -/
theorem jsdoc_anywhere_counterexample :
    hasJsdocBefore ["/** d */".toList, "const a = 1;".toList] 2 = false
    ∧ JsdocAnywhere
        (joinNl (windowOf ["/** d */".toList, "const a = 1;".toList] 2)) :=
  ⟨by decide, ⟨[], " d ".toList, "\nconst a = 1;".toList, by decide⟩⟩

/-- C6 (amended): a candidate line is judged documented iff the joined
window of up to 20 preceding lines contains a block opened with `/**` whose
closing `*/` is followed only by whitespace up to the end of the window
(blank lines between the block and the candidate are fine; code lines are
not). -/
theorem jsdoc_window_characterization (lines : List Str) (idx : Nat)
    (h : idx ≠ 0) :
    hasJsdocBefore lines idx = true
      ↔ JsdocClosedToWindowEnd (joinNl (windowOf lines idx)) := by
  rw [hasJsdocBefore, if_neg h]
  exact jsdocSearchHit_iff _

/-- Witness for the amended C6 at a one-line window holding a doc block. -/
theorem jsdoc_window_characterization_witness :
    (1 : Nat) ≠ 0
    ∧ (hasJsdocBefore ["/** d */".toList] 1 = true
        ↔ JsdocClosedToWindowEnd (joinNl (windowOf ["/** d */".toList] 1))) :=
  ⟨one_ne_zero, jsdoc_window_characterization ["/** d */".toList] 1 one_ne_zero⟩

/-- C7: the controller base path `"/api/"` combined with the method path
`"users"` normalizes to exactly `"/api/users"` — no double slash, no
trailing slash. -/
theorem endpoint_path_normalization :
    nestFullPath "/api/".toList "users".toList = "/api/users".toList := by
  decide

/-! ### Endpoint method and path are set together -/

theorem foldl_preserve {α β : Type} (f : β → α → β) (P : β → Prop)
    (hstep : ∀ b a, P b → P (f b a)) :
    ∀ (l : List α) (b : β), P b → P (l.foldl f b) := by
  intro l
  induction l with
  | nil => intro b hb; exact hb
  | cons a l' ih => intro b hb; exact ih _ (hstep b a hb)

theorem tsFuncStep_preserves (lines : List Str)
    (expD nestD : List (Nat × (Str × Str))) (content : Str)
    (acc : List Nat × List SymbolInfo) (m : TsFuncMatch)
    (hacc : ∀ s ∈ acc.2, s.endpoint_method.isSome = s.endpoint_path.isSome) :
    ∀ s ∈ (tsFuncStep lines expD nestD content acc m).2,
      s.endpoint_method.isSome = s.endpoint_path.isSome := by
  intro s hs
  simp only [tsFuncStep] at hs
  split at hs
  · exact hacc s hs
  · split at hs
    · exact hacc s hs
    · split at hs
      · exact hacc s hs
      · simp only [List.mem_append, List.mem_singleton] at hs
        rcases hs with h | h
        · exact hacc s h
        · subst h
          cases tsEndpointFor expD nestD (lineOfOffset content m.start) <;> simp

theorem tsSynthStep_preserves (lines : List Str)
    (acc : List Nat × List SymbolInfo) (kv : Nat × (Str × Str))
    (hacc : ∀ s ∈ acc.2, s.endpoint_method.isSome = s.endpoint_path.isSome) :
    ∀ s ∈ (tsSynthStep lines acc kv).2,
      s.endpoint_method.isSome = s.endpoint_path.isSome := by
  intro s hs
  simp only [tsSynthStep] at hs
  split at hs
  · exact hacc s hs
  · split at hs
    · exact hacc s hs
    · simp only [List.mem_append, List.mem_singleton] at hs
      rcases hs with h | h
      · exact hacc s h
      · subst h; rfl

theorem ts_endpoint_fields_aux (content : Str) (mr : TsMatches)
    (s : SymbolInfo) (hs : s ∈ tsAnalyze content mr) :
    s.endpoint_method.isSome = s.endpoint_path.isSome := by
  simp only [tsAnalyze, sortSymbolsAsc] at hs
  rw [(List.perm_insertionSort symLE _).mem_iff] at hs
  revert s hs
  apply foldl_preserve _
    (fun acc => ∀ s ∈ acc.2, s.endpoint_method.isSome = s.endpoint_path.isSome)
    (fun b a hb => tsSynthStep_preserves _ b a hb)
  apply foldl_preserve _
    (fun acc => ∀ s ∈ acc.2, s.endpoint_method.isSome = s.endpoint_path.isSome)
    (fun b a hb => tsFuncStep_preserves _ _ _ _ b a hb)
  intro s hs
  simp at hs

/-- C9: for every input, every symbol either analyzer returns has
`endpoint_method` and `endpoint_path` both present or both absent — never
one without the other. -/
theorem endpoint_method_path_together (parsed : Option (List PyNode))
    (pyContent tsContent : Str) (mr : TsMatches) :
    (∀ s ∈ pythonAnalyze parsed pyContent,
        s.endpoint_method.isSome = s.endpoint_path.isSome)
    ∧ (∀ s ∈ tsAnalyze tsContent mr,
        s.endpoint_method.isSome = s.endpoint_path.isSome) :=
  ⟨fun s hs => python_endpoint_fields_aux parsed pyContent s hs,
   fun s hs => ts_endpoint_fields_aux tsContent mr s hs⟩

/-- A concrete walked node for the C9 witness: an undocumented
`@app.get("/users")` handler. -/
def witnessPyNode : PyNode :=
  PyNode.functionDef
    { name := "get_users".toList,
      decorator_list := [PyExpr.call
        (PyExpr.attr (PyExpr.name "app".toList) "get".toList)
        [PyExpr.const (PyConstVal.str "/users".toList)] []],
      body := [PyStmt.otherStmt],
      lineno := 1, end_lineno := 2 } true

/-- The symbol the analyzer emits for `witnessPyNode`. -/
def witnessPySymbol : SymbolInfo :=
  { name := "get_users".toList, line := 1, type := SymKind.endpoint,
    has_docs := false,
    endpoint_method := some "GET".toList,
    endpoint_path := some "/users".toList,
    source_lines := ["def get_users():".toList, "    return []".toList] }

/-- Witness for C9 at a concrete parsed module and emitted symbol. -/
theorem endpoint_method_path_together_witness :
    witnessPySymbol ∈ pythonAnalyze (some [witnessPyNode])
        "def get_users():\n    return []\n".toList
    ∧ witnessPySymbol.endpoint_method.isSome
        = witnessPySymbol.endpoint_path.isSome :=
  ⟨by decide,
   (endpoint_method_path_together (some [witnessPyNode])
       "def get_users():\n    return []\n".toList "".toList
       { funcMatches := [], express := [], nest := [], controller := none }).1
     witnessPySymbol (by decide)⟩

end Annotator
